import Mathlib

/-!
Shallow embedding of the tproc payment-ledger state machine (`src/main.rs`)
and verification of the specification's claims about it.

The Rust program uses `rust_decimal::Decimal` (exact decimal arithmetic) for
amounts; the state machine only adds, subtracts and compares amounts, so we
embed values as exact rationals `ℚ`.  `HashMap<K, V>` is embedded as the
function `Nat → Option V` (u16/u32 keys widen to `Nat`; key collisions in the
source can only happen at equal numeric keys, which the embedding preserves).
Rust's in-place mutation returning `Result<()>` becomes a function returning
the new state together with a success flag: `State → Entry → State × Bool`
(`true` = `Ok(())`); on an `Err` return the partially mutated state (e.g. the
account inserted by `entry().or_insert`) is the state the Rust program keeps.
-/

namespace TProc

/-- `rust_decimal::Decimal` values, embedded as exact rationals. -/
abbrev Value : Type := ℚ

/-- `enum EntryType` from `src/main.rs`. -/
inductive EntryType
  | Deposit
  | Withdrawal
  | Dispute
  | Resolve
  | Chargeback
deriving DecidableEq, Repr

/-- `EntryType::is_tx`: deposit or withdrawal (fund-moving). -/
def EntryType.is_tx (t : EntryType) : Bool :=
  t = EntryType.Deposit || t = EntryType.Withdrawal

/-- `EntryType::is_op`: dispute, resolve or chargeback. -/
def EntryType.is_op (t : EntryType) : Bool :=
  !(t = EntryType.Deposit) && !(t = EntryType.Withdrawal)

/-- `enum EntryState` from `src/main.rs`. -/
inductive EntryState
  | New
  | Processed
  | Failed
  | Disputed
  | Resolved
  | Chargeback
deriving DecidableEq, Repr

/-- `struct Entry` from `src/main.rs`.  `state` is skipped during
deserialization, so every parsed entry starts in `New`. -/
structure Entry where
  typ : EntryType
  client : Nat
  id : Nat
  amount : Option Value
  state : EntryState := EntryState.New
deriving DecidableEq, Repr

/-- `struct Account` from `src/main.rs`; `Default` gives zero balances,
unlocked. -/
structure Account where
  available : Value := 0
  held : Value := 0
  locked : Bool := false
deriving DecidableEq, Repr

instance : Inhabited Account := ⟨{}⟩

/-- `HashMap` embedded as a function from keys to optional values. -/
def Map (α : Type) : Type := Nat → Option α

/-- `HashMap::get`. -/
def Map.find {α : Type} (m : Map α) (k : Nat) : Option α := m k

/-- `HashMap::insert` (overwrites any previous value at the key). -/
def Map.insert {α : Type} (m : Map α) (k : Nat) (v : α) : Map α :=
  fun q => if q = k then some v else m q

/-- The empty `HashMap`. -/
def Map.empty {α : Type} : Map α := fun _ => none

/-- `struct State` from `src/main.rs`. -/
structure State where
  accounts : Map Account
  transactions : Map Entry

/-- `State::default()`: empty maps. -/
def State.empty : State := ⟨Map.empty, Map.empty⟩

/-- `State::apply_tx` from `src/main.rs`: apply a Deposit/Withdrawal.
`accounts.entry(client).or_insert_with(Default::default)` inserts a default
account before anything else, so that insertion survives every error path.
A failed withdrawal sets `tx.state = Failed` and then `bail!`s *before* the
`transactions.insert` line, so the Failed entry is dropped, not stored. -/
def State.apply_tx (s : State) (tx : Entry) : State × Bool :=
  let acc := (s.accounts.find tx.client).getD default
  let s1 : State := { s with accounts := s.accounts.insert tx.client acc }
  match tx.amount with
  | none => (s1, false)
  | some amount =>
    match tx.typ with
    | EntryType.Deposit =>
        ({ s1 with
            accounts := s1.accounts.insert tx.client
              { acc with available := acc.available + amount },
            transactions := s1.transactions.insert tx.id
              { tx with state := EntryState.Processed } }, true)
    | EntryType.Withdrawal =>
        if acc.available - amount < 0 then
          (s1, false)
        else
          ({ s1 with
              accounts := s1.accounts.insert tx.client
                { acc with available := acc.available - amount },
              transactions := s1.transactions.insert tx.id
                { tx with state := EntryState.Processed } }, true)
    | _ => (s1, false)

/-- `State::apply_op` from `src/main.rs`: apply a Dispute/Resolve/Chargeback
to a pre-existing transaction.  Every `ensure!`/`ok_or` precedes any mutation,
so an error returns the state unchanged. -/
def State.apply_op (s : State) (op : Entry) : State × Bool :=
  match s.transactions.find op.id with
  | none => (s, false)
  | some actual =>
    if actual.client = op.client then
      match s.accounts.find op.client with
      | none => (s, false)
      | some acc =>
        match actual.amount with
        | none => (s, false)
        | some amount =>
          match op.typ with
          | EntryType.Dispute =>
              if actual.typ.is_tx then
                if actual.state = EntryState.Processed ∨
                    actual.state = EntryState.Resolved then
                  ({ s with
                      transactions := s.transactions.insert op.id
                        { actual with state := EntryState.Disputed },
                      accounts := s.accounts.insert op.client
                        { acc with
                            held := acc.held + amount,
                            available := acc.available - amount } }, true)
                else (s, false)
              else (s, false)
          | EntryType.Resolve =>
              if acc.held ≥ amount then
                if actual.state = EntryState.Disputed then
                  ({ s with
                      transactions := s.transactions.insert op.id
                        { actual with state := EntryState.Resolved },
                      accounts := s.accounts.insert op.client
                        { acc with
                            held := acc.held - amount,
                            available := acc.available + amount } }, true)
                else (s, false)
              else (s, false)
          | EntryType.Chargeback =>
              if acc.held ≥ amount then
                if actual.state = EntryState.Disputed then
                  ({ s with
                      transactions := s.transactions.insert op.id
                        { actual with state := EntryState.Chargeback },
                      accounts := s.accounts.insert op.client
                        { acc with
                            held := acc.held - amount,
                            locked := true } }, true)
                else (s, false)
              else (s, false)
          | _ => (s, false)
    else (s, false)

/-- `State::apply` from `src/main.rs`: dispatch on the entry kind. -/
def State.apply (s : State) (tx : Entry) : State × Bool :=
  if tx.typ.is_tx then s.apply_tx tx else s.apply_op tx

/-- The stream driver loop in `process_stream`: apply each entry in order,
logging and skipping failures. -/
def processList (s : State) : List Entry → State
  | [] => s
  | e :: rest => processList (s.apply e).1 rest

/-- The account snapshot for a client (`Default` if absent, matching what
`apply_tx` would create on first touch). -/
def accOf (s : State) (c : Nat) : Account :=
  (s.accounts.find c).getD default

/-- Helper to build a deposit entry as parsed from the input. -/
def depositE (c id : Nat) (a : Value) : Entry :=
  { typ := EntryType.Deposit, client := c, id := id, amount := some a }

/-- Helper to build a withdrawal entry as parsed from the input. -/
def withdrawalE (c id : Nat) (a : Value) : Entry :=
  { typ := EntryType.Withdrawal, client := c, id := id, amount := some a }

/-- Helper to build a dispute entry as parsed from the input. -/
def disputeE (c id : Nat) : Entry :=
  { typ := EntryType.Dispute, client := c, id := id, amount := none }

/-- Helper to build a resolve entry as parsed from the input. -/
def resolveE (c id : Nat) : Entry :=
  { typ := EntryType.Resolve, client := c, id := id, amount := none }

/-- Helper to build a chargeback entry as parsed from the input. -/
def chargebackE (c id : Nat) : Entry :=
  { typ := EntryType.Chargeback, client := c, id := id, amount := none }

/-- Well-formedness of a state: every stored transaction record is a
Deposit/Withdrawal, carries an amount, and its client has an account.
`apply_tx` only stores entries after the amount check and after
`entry().or_insert` created the account, so (as proved below) every state the
program reaches from `State::default()` is well-formed. -/
def WF (s : State) : Prop :=
  ∀ id t, s.transactions.find id = some t →
    t.typ.is_tx = true ∧ t.amount.isSome = true ∧
    (s.accounts.find t.client).isSome = true

/-- The account total `available + held` for a client. -/
def totalOf (s : State) (c : Nat) : Value :=
  (accOf s c).available + (accOf s c).held

/-- The net flow one entry contributes to client `c`'s ledger: the amount of
a deposit accepted for processing (stored with status Processed), minus the
amount of a withdrawal accepted for processing, minus the recorded amount
removed by a successful chargeback.  Rejected entries contribute nothing. -/
def flowDelta (s : State) (e : Entry) (c : Nat) : Value :=
  if (s.apply e).2 = true ∧ e.client = c then
    match e.typ with
    | EntryType.Deposit => e.amount.getD 0
    | EntryType.Withdrawal => -(e.amount.getD 0)
    | EntryType.Chargeback =>
        -(((s.transactions.find e.id).bind Entry.amount).getD 0)
    | _ => 0
  else 0

/-- The sum of `flowDelta` over a list of entries, threading the state:
the sum of Processed deposits minus Processed withdrawals minus charged-back
amounts for client `c`. -/
def flows (s : State) : List Entry → Nat → Value
  | [], _ => 0
  | e :: rest, c => flowDelta s e c + flows (s.apply e).1 rest c

/-- The locked single-client state (available = 5) used to witness the
amended C7 with both an accepted deposit and an accepted withdrawal. -/
def lockedS : State :=
  { accounts := Map.empty.insert 1
      { available := 5, held := 0, locked := true },
    transactions := Map.empty }

/-- The single-client state with a disputed deposit of 10 and held = 10,
used to witness C8. -/
def disputedS : State :=
  { accounts := Map.empty.insert 1
      { available := 0, held := 10, locked := false },
    transactions := Map.empty.insert 1
      { typ := EntryType.Deposit, client := 1, id := 1, amount := some 10,
        state := EntryState.Disputed } }

/-- The well-formed single-client state with a Processed deposit of 10,
used to witness C4. -/
def processedS : State :=
  { accounts := Map.empty.insert 1
      { available := 10, held := 0, locked := false },
    transactions := Map.empty.insert 1
      { typ := EntryType.Deposit, client := 1, id := 1, amount := some 10,
        state := EntryState.Processed } }

/-- The single-client state whose deposit of 10 (tx 1) has been charged
back, used to witness the amended C5. -/
def chargedBackS : State :=
  { accounts := Map.empty.insert 1
      { available := 0, held := 0, locked := true },
    transactions := Map.empty.insert 1
      { typ := EntryType.Deposit, client := 1, id := 1, amount := some 10,
        state := EntryState.Chargeback } }

/-! ### Basic lemmas about the map embedding and the two apply paths -/

/-- `Account::default()` has zero balances and is unlocked. -/
theorem Account.default_def :
    (default : Account) = { available := 0, held := 0, locked := false } := rfl

/-- Looking up an inserted key. -/
theorem Map.find_insert {α : Type} (m : Map α) (k q : Nat) (v : α) :
    (m.insert k v).find q = if q = k then some v else m.find q := rfl

/-- A failing `apply_tx` leaves the state as it was except for the account
inserted by `entry().or_insert` (holding its previous value, or the default
account if the client was new); in particular no transaction is recorded. -/
theorem apply_tx_fail_state (s : State) (e : Entry)
    (h : (s.apply_tx e).2 = false) :
    (s.apply_tx e).1 =
      { s with accounts := s.accounts.insert e.client (accOf s e.client) } := by
  rcases e with ⟨typ, ec, ei, ea, es⟩
  unfold State.apply_tx at h ⊢
  cases ea with
  | none => rfl
  | some a =>
    cases typ with
    | Deposit => exact absurd h (by simp)
    | Withdrawal =>
      dsimp only at h ⊢
      by_cases hlt : ((s.accounts.find ec).getD default).available - a < 0
      · rw [if_pos hlt]
        rfl
      · rw [if_neg hlt] at h
        exact absurd h (by simp)
    | Dispute => rfl
    | Resolve => rfl
    | Chargeback => rfl

/-- A failing `apply_op` returns the state completely unchanged: every
`ensure!`/`ok_or` check precedes every mutation. -/
theorem apply_op_fail_state (s : State) (e : Entry)
    (h : (s.apply_op e).2 = false) :
    (s.apply_op e).1 = s := by
  rcases e with ⟨typ, ec, ei, ea, es⟩
  unfold State.apply_op at h ⊢
  dsimp only at h ⊢
  rcases hfind : s.transactions.find ei with _ | actual
  · rfl
  · rw [hfind] at h
    dsimp only at h ⊢
    by_cases hcl : actual.client = ec
    · rw [if_pos hcl] at h ⊢
      rcases hacc : s.accounts.find ec with _ | acc
      · rfl
      · rw [hacc] at h
        dsimp only at h ⊢
        rcases ham : actual.amount with _ | a
        · rfl
        · rw [ham] at h
          dsimp only at h ⊢
          cases typ with
          | Deposit => rfl
          | Withdrawal => rfl
          | Dispute =>
            dsimp only at h ⊢
            by_cases hitx : actual.typ.is_tx = true
            · rw [if_pos hitx] at h ⊢
              by_cases hst : actual.state = EntryState.Processed ∨
                  actual.state = EntryState.Resolved
              · rw [if_pos hst] at h
                exact absurd h (by simp)
              · rw [if_neg hst]
            · rw [if_neg hitx]
          | Resolve =>
            dsimp only at h ⊢
            by_cases hheld : acc.held ≥ a
            · rw [if_pos hheld] at h ⊢
              by_cases hst : actual.state = EntryState.Disputed
              · rw [if_pos hst] at h
                exact absurd h (by simp)
              · rw [if_neg hst]
            · rw [if_neg hheld]
          | Chargeback =>
            dsimp only at h ⊢
            by_cases hheld : acc.held ≥ a
            · rw [if_pos hheld] at h ⊢
              by_cases hst : actual.state = EntryState.Disputed
              · rw [if_pos hst] at h
                exact absurd h (by simp)
              · rw [if_neg hst]
            · rw [if_neg hheld]
    · rw [if_neg hcl]

/-- Inserting into the accounts map preserves the existence of any account. -/
theorem find_insert_isSome (m : Map Account) (k c : Nat) (v : Account)
    (h : (m.find c).isSome = true) :
    ((m.insert k v).find c).isSome = true := by
  rw [Map.find_insert]
  split <;> simp [h]

/-- The empty state is well-formed. -/
theorem WF_empty : WF State.empty := by
  intro id t hf
  simp [State.empty, Map.find, Map.empty] at hf

/-- Applying any entry preserves well-formedness. -/
theorem WF_apply (s : State) (e : Entry) (h : WF s) : WF (s.apply e).1 := by
  rcases e with ⟨typ, ec, ei, ea, es⟩
  cases typ with
  | Deposit =>
    have happ : State.apply s ⟨EntryType.Deposit, ec, ei, ea, es⟩ =
        State.apply_tx s ⟨EntryType.Deposit, ec, ei, ea, es⟩ := by
      simp [State.apply, EntryType.is_tx]
    rw [happ]
    unfold State.apply_tx
    dsimp only
    cases ea with
    | none =>
      intro id t hf
      obtain ⟨h1, h2, h3⟩ := h id t hf
      exact ⟨h1, h2, find_insert_isSome _ _ _ _ h3⟩
    | some a =>
      intro id t hf
      dsimp only at hf
      rw [Map.find_insert] at hf
      by_cases hid : id = ei
      · rw [if_pos hid] at hf
        cases hf
        refine ⟨by simp [EntryType.is_tx], by simp, ?_⟩
        simp [Map.find_insert]
      · rw [if_neg hid] at hf
        obtain ⟨h1, h2, h3⟩ := h id t hf
        exact ⟨h1, h2,
          find_insert_isSome _ _ _ _ (find_insert_isSome _ _ _ _ h3)⟩
  | Withdrawal =>
    have happ : State.apply s ⟨EntryType.Withdrawal, ec, ei, ea, es⟩ =
        State.apply_tx s ⟨EntryType.Withdrawal, ec, ei, ea, es⟩ := by
      simp [State.apply, EntryType.is_tx]
    rw [happ]
    unfold State.apply_tx
    dsimp only
    cases ea with
    | none =>
      intro id t hf
      obtain ⟨h1, h2, h3⟩ := h id t hf
      exact ⟨h1, h2, find_insert_isSome _ _ _ _ h3⟩
    | some a =>
      dsimp only
      by_cases hlt : ((s.accounts.find ec).getD default).available - a < 0
      · rw [if_pos hlt]
        intro id t hf
        obtain ⟨h1, h2, h3⟩ := h id t hf
        exact ⟨h1, h2, find_insert_isSome _ _ _ _ h3⟩
      · rw [if_neg hlt]
        intro id t hf
        dsimp only at hf
        rw [Map.find_insert] at hf
        by_cases hid : id = ei
        · rw [if_pos hid] at hf
          cases hf
          refine ⟨by simp [EntryType.is_tx], by simp, ?_⟩
          simp [Map.find_insert]
        · rw [if_neg hid] at hf
          obtain ⟨h1, h2, h3⟩ := h id t hf
          exact ⟨h1, h2,
            find_insert_isSome _ _ _ _ (find_insert_isSome _ _ _ _ h3)⟩
  | Dispute =>
    have happ : State.apply s ⟨EntryType.Dispute, ec, ei, ea, es⟩ =
        State.apply_op s ⟨EntryType.Dispute, ec, ei, ea, es⟩ := by
      simp [State.apply, EntryType.is_tx]
    rw [happ]
    unfold State.apply_op
    dsimp only
    rcases hfind : s.transactions.find ei with _ | actual
    · exact h
    · dsimp only
      by_cases hcl : actual.client = ec
      · rw [if_pos hcl]
        rcases hacc : s.accounts.find ec with _ | acc
        · exact h
        · dsimp only
          rcases ham : actual.amount with _ | a
          · exact h
          · dsimp only
            by_cases hitx : actual.typ.is_tx = true
            · rw [if_pos hitx]
              by_cases hst : actual.state = EntryState.Processed ∨
                  actual.state = EntryState.Resolved
              · rw [if_pos hst]
                intro id t hf
                dsimp only at hf
                rw [Map.find_insert] at hf
                by_cases hid : id = ei
                · rw [if_pos hid] at hf
                  cases hf
                  refine ⟨hitx, by simp [ham], ?_⟩
                  dsimp only
                  rw [hcl]
                  simp [Map.find_insert]
                · rw [if_neg hid] at hf
                  obtain ⟨h1, h2, h3⟩ := h id t hf
                  exact ⟨h1, h2, find_insert_isSome _ _ _ _ h3⟩
              · rw [if_neg hst]; exact h
            · rw [if_neg hitx]; exact h
      · rw [if_neg hcl]; exact h
  | Resolve =>
    have happ : State.apply s ⟨EntryType.Resolve, ec, ei, ea, es⟩ =
        State.apply_op s ⟨EntryType.Resolve, ec, ei, ea, es⟩ := by
      simp [State.apply, EntryType.is_tx]
    rw [happ]
    unfold State.apply_op
    dsimp only
    rcases hfind : s.transactions.find ei with _ | actual
    · exact h
    · dsimp only
      by_cases hcl : actual.client = ec
      · rw [if_pos hcl]
        rcases hacc : s.accounts.find ec with _ | acc
        · exact h
        · dsimp only
          rcases ham : actual.amount with _ | a
          · exact h
          · dsimp only
            by_cases hheld : acc.held ≥ a
            · rw [if_pos hheld]
              by_cases hst : actual.state = EntryState.Disputed
              · rw [if_pos hst]
                intro id t hf
                dsimp only at hf
                rw [Map.find_insert] at hf
                by_cases hid : id = ei
                · rw [if_pos hid] at hf
                  cases hf
                  have hA := h ei actual hfind
                  refine ⟨hA.1, by simp [ham], ?_⟩
                  dsimp only
                  rw [hcl]
                  simp [Map.find_insert]
                · rw [if_neg hid] at hf
                  obtain ⟨h1, h2, h3⟩ := h id t hf
                  exact ⟨h1, h2, find_insert_isSome _ _ _ _ h3⟩
              · rw [if_neg hst]; exact h
            · rw [if_neg hheld]; exact h
      · rw [if_neg hcl]; exact h
  | Chargeback =>
    have happ : State.apply s ⟨EntryType.Chargeback, ec, ei, ea, es⟩ =
        State.apply_op s ⟨EntryType.Chargeback, ec, ei, ea, es⟩ := by
      simp [State.apply, EntryType.is_tx]
    rw [happ]
    unfold State.apply_op
    dsimp only
    rcases hfind : s.transactions.find ei with _ | actual
    · exact h
    · dsimp only
      by_cases hcl : actual.client = ec
      · rw [if_pos hcl]
        rcases hacc : s.accounts.find ec with _ | acc
        · exact h
        · dsimp only
          rcases ham : actual.amount with _ | a
          · exact h
          · dsimp only
            by_cases hheld : acc.held ≥ a
            · rw [if_pos hheld]
              by_cases hst : actual.state = EntryState.Disputed
              · rw [if_pos hst]
                intro id t hf
                dsimp only at hf
                rw [Map.find_insert] at hf
                by_cases hid : id = ei
                · rw [if_pos hid] at hf
                  cases hf
                  have hA := h ei actual hfind
                  refine ⟨hA.1, by simp [ham], ?_⟩
                  dsimp only
                  rw [hcl]
                  simp [Map.find_insert]
                · rw [if_neg hid] at hf
                  obtain ⟨h1, h2, h3⟩ := h id t hf
                  exact ⟨h1, h2, find_insert_isSome _ _ _ _ h3⟩
              · rw [if_neg hst]; exact h
            · rw [if_neg hheld]; exact h
      · rw [if_neg hcl]; exact h

/-- Every state the program reaches from `State::default()` is
well-formed. -/
theorem WF_processList (s : State) (l : List Entry) (h : WF s) :
    WF (processList s l) := by
  induction l generalizing s with
  | nil => exact h
  | cons e rest ih => exact ih (s.apply e).1 (WF_apply s e h)

/-! ### Claim theorems -/

/-- C1: The claim says a withdrawal rejected for insufficient funds still
stores a Transaction record with status Failed.  The code sets
`tx.state = Failed` but then `bail!`s before reaching `transactions.insert`,
so no record is stored at all: after a deposit of 10 for client 1 (tx 1), the
rejected withdrawal of 15 (tx 2) leaves `transactions` without any entry for
tx 2.  The dead `tx.state = Failed` write and the spec agree on the intent,
so this is a slip in the code. -/
theorem c1_failed_withdrawal_not_stored :
    ((State.empty.apply (depositE 1 1 10)).1.apply (withdrawalE 1 2 15)).2 =
      false ∧
    ((State.empty.apply (depositE 1 1 10)).1.apply
        (withdrawalE 1 2 15)).1.transactions.find 2 = none := by
  have h1 : (10 : ℚ) - 15 < 0 := by norm_num
  simp [State.apply, State.apply_tx, State.empty, EntryType.is_tx, Map.find,
    Map.insert, Map.empty, depositE, withdrawalE, Account.default_def, h1]

/-- C3: A withdrawal with an amount is rejected iff `available − amount` is
strictly negative at application time; a rejected withdrawal leaves the
client's available balance unchanged, and an accepted one decrements
available by exactly the amount and stores the record with status
Processed. -/
theorem c3_withdrawal_rule (s : State) (e : Entry) (a : Value)
    (htyp : e.typ = EntryType.Withdrawal) (ha : e.amount = some a) :
    ((s.apply e).2 = false ↔ (accOf s e.client).available - a < 0) ∧
    ((s.apply e).2 = false →
      (accOf (s.apply e).1 e.client).available = (accOf s e.client).available) ∧
    ((s.apply e).2 = true →
      (accOf (s.apply e).1 e.client).available =
        (accOf s e.client).available - a ∧
      (s.apply e).1.transactions.find e.id =
        some { e with state := EntryState.Processed }) := by
  rcases e with ⟨typ, ec, ei, ea, es⟩
  dsimp only at htyp ha ⊢
  subst htyp
  subst ha
  by_cases hlt : ((s.accounts ec).getD default).available < a
  · simp [State.apply, State.apply_tx, EntryType.is_tx, accOf, Map.find,
      Map.insert, hlt]
  · simp [State.apply, State.apply_tx, EntryType.is_tx, accOf, Map.find,
      Map.insert, hlt]

/-- Witness for C3 at a concrete input: withdrawing 5 from a fresh client is
rejected because 0 − 5 < 0, and available stays 0. -/
theorem c3_withdrawal_rule_witness :
    (withdrawalE 1 1 5).typ = EntryType.Withdrawal ∧
    (withdrawalE 1 1 5).amount = some 5 ∧
    (((State.empty.apply (withdrawalE 1 1 5)).2 = false ↔
        (accOf State.empty (withdrawalE 1 1 5).client).available - 5 < 0) ∧
      ((State.empty.apply (withdrawalE 1 1 5)).2 = false →
        (accOf (State.empty.apply (withdrawalE 1 1 5)).1
            (withdrawalE 1 1 5).client).available =
          (accOf State.empty (withdrawalE 1 1 5).client).available) ∧
      ((State.empty.apply (withdrawalE 1 1 5)).2 = true →
        (accOf (State.empty.apply (withdrawalE 1 1 5)).1
            (withdrawalE 1 1 5).client).available =
          (accOf State.empty (withdrawalE 1 1 5).client).available - 5 ∧
        (State.empty.apply (withdrawalE 1 1 5)).1.transactions.find
            (withdrawalE 1 1 5).id =
          some { withdrawalE 1 1 5 with state := EntryState.Processed })) :=
  ⟨rfl, rfl, c3_withdrawal_rule State.empty (withdrawalE 1 1 5) 5 rfl rfl⟩

/-- C10: Balance atomicity on error, with the account-creation exception.
When applying an entry fails, every account that already existed keeps its
exact record; a failing Deposit/Withdrawal still creates a fresh default
(zero-balance, unlocked) account for its client when absent, because
`entry().or_insert` runs before any check; a failing operation returns the
state untouched and in particular never creates an account. -/
theorem c10_error_atomicity (s : State) (e : Entry)
    (hfail : (s.apply e).2 = false) :
    (∀ c acc, s.accounts.find c = some acc →
      (s.apply e).1.accounts.find c = some acc) ∧
    (e.typ.is_tx = true → s.accounts.find e.client = none →
      (s.apply e).1.accounts.find e.client = some default) ∧
    (e.typ.is_op = true → (s.apply e).1 = s) := by
  by_cases htx : e.typ.is_tx = true
  · have happ : s.apply e = s.apply_tx e := by simp [State.apply, htx]
    rw [happ] at hfail ⊢
    rw [apply_tx_fail_state s e hfail]
    refine ⟨?_, ?_, ?_⟩
    · intro c acc hc
      by_cases hce : c = e.client
      · subst hce
        simp [Map.find_insert, accOf, hc]
      · simp [Map.find_insert, hce, hc]
    · intro _ hnone
      simp [Map.find_insert, accOf, hnone]
    · intro hopty
      exfalso
      cases hty : e.typ <;>
        simp [EntryType.is_tx, EntryType.is_op, hty] at htx hopty
  · have happ : s.apply e = s.apply_op e := by simp [State.apply, htx]
    rw [happ] at hfail ⊢
    rw [apply_op_fail_state s e hfail]
    exact ⟨fun c acc hc => hc, fun h _ => absurd h htx, fun _ => rfl⟩

/-- Witness for C10 at a concrete input: a withdrawal from a fresh client
fails, existing accounts are untouched, and a zero-balance account is created
for client 1. -/
theorem c10_error_atomicity_witness :
    (State.empty.apply (withdrawalE 1 1 5)).2 = false ∧
    ((∀ c acc, State.empty.accounts.find c = some acc →
        (State.empty.apply (withdrawalE 1 1 5)).1.accounts.find c = some acc) ∧
      ((withdrawalE 1 1 5).typ.is_tx = true →
        State.empty.accounts.find (withdrawalE 1 1 5).client = none →
        (State.empty.apply (withdrawalE 1 1 5)).1.accounts.find
            (withdrawalE 1 1 5).client = some default) ∧
      ((withdrawalE 1 1 5).typ.is_op = true →
        (State.empty.apply (withdrawalE 1 1 5)).1 = State.empty)) := by
  have h5 : (0 : ℚ) - 5 < 0 := by norm_num
  have hfail : (State.empty.apply (withdrawalE 1 1 5)).2 = false := by
    simp [State.apply, State.apply_tx, State.empty, EntryType.is_tx, Map.find,
      Map.empty, withdrawalE, Account.default_def, h5]
  exact ⟨hfail, c10_error_atomicity State.empty (withdrawalE 1 1 5) hfail⟩

/-- C2 counterexample: the code has no duplicate-`tx_id` check.  After a
deposit of 10 is stored under tx 1, a second deposit of 5 reusing tx 1 is
accepted (`apply` returns `Ok`), and `transactions.insert` silently
overwrites the stored record with the new one, refuting both halves of the
claim. -/
theorem c2_duplicate_txid_counterexample :
    ((State.empty.apply (depositE 1 1 10)).1.transactions.find 1 =
      some { depositE 1 1 10 with state := EntryState.Processed }) ∧
    ((State.empty.apply (depositE 1 1 10)).1.apply (depositE 1 1 5)).2 =
      true ∧
    ((State.empty.apply (depositE 1 1 10)).1.apply
        (depositE 1 1 5)).1.transactions.find 1 =
      some { depositE 1 1 5 with state := EntryState.Processed } := by
  simp [State.apply, State.apply_tx, State.empty, EntryType.is_tx, Map.find,
    Map.insert, Map.empty, depositE, Account.default_def]

/-- C2 amended: a Deposit or Withdrawal whose `tx_id` collides with an
already-stored transaction is not rejected for the collision: its outcome is
decided by the ordinary rules alone (a deposit always succeeds, a withdrawal
succeeds unless it would drive available negative), and on success the new
record overwrites the previously stored one. -/
theorem c2_amended_collision_overwrites (s : State) (e t : Entry) (a : Value)
    (htx : e.typ.is_tx = true) (ha : e.amount = some a)
    (hcol : s.transactions.find e.id = some t) :
    ((s.apply e).2 = true ↔
      ¬(e.typ = EntryType.Withdrawal ∧ (accOf s e.client).available - a < 0)) ∧
    ((s.apply e).2 = true →
      (s.apply e).1.transactions.find e.id =
        some { e with state := EntryState.Processed }) := by
  rcases e with ⟨typ, ec, ei, ea, es⟩
  dsimp only at htx ha hcol ⊢
  subst ha
  cases typ with
  | Deposit =>
    simp [State.apply, State.apply_tx, EntryType.is_tx, Map.find, Map.insert]
  | Withdrawal =>
    by_cases hlt : ((s.accounts ec).getD default).available < a
    · simp [State.apply, State.apply_tx, EntryType.is_tx, accOf, Map.find,
        Map.insert, hlt]
    · simp [State.apply, State.apply_tx, EntryType.is_tx, accOf, Map.find,
        Map.insert, hlt]
  | Dispute => simp [EntryType.is_tx] at htx
  | Resolve => simp [EntryType.is_tx] at htx
  | Chargeback => simp [EntryType.is_tx] at htx

/-- Witness for the amended C2: with a deposit of 10 stored under tx 1, a
second deposit of 5 reusing tx 1 succeeds and overwrites the record. -/
theorem c2_amended_collision_overwrites_witness :
    (depositE 1 1 5).typ.is_tx = true ∧
    (depositE 1 1 5).amount = some 5 ∧
    (State.empty.apply (depositE 1 1 10)).1.transactions.find
        (depositE 1 1 5).id =
      some { depositE 1 1 10 with state := EntryState.Processed } ∧
    ((((State.empty.apply (depositE 1 1 10)).1.apply (depositE 1 1 5)).2 =
          true ↔
        ¬((depositE 1 1 5).typ = EntryType.Withdrawal ∧
          (accOf (State.empty.apply (depositE 1 1 10)).1
              (depositE 1 1 5).client).available - 5 < 0)) ∧
      (((State.empty.apply (depositE 1 1 10)).1.apply (depositE 1 1 5)).2 =
          true →
        ((State.empty.apply (depositE 1 1 10)).1.apply
            (depositE 1 1 5)).1.transactions.find (depositE 1 1 5).id =
          some { depositE 1 1 5 with state := EntryState.Processed })) := by
  have hcol : (State.empty.apply (depositE 1 1 10)).1.transactions.find
      (depositE 1 1 5).id =
      some { depositE 1 1 10 with state := EntryState.Processed } := by
    simp [State.apply, State.apply_tx, State.empty, EntryType.is_tx, Map.find,
      Map.insert, Map.empty, depositE, Account.default_def]
  exact ⟨rfl, rfl, hcol,
    c2_amended_collision_overwrites (State.empty.apply (depositE 1 1 10)).1
      (depositE 1 1 5) _ 5 rfl rfl hcol⟩

/-- C7 counterexample: after client 1's account is locked by a chargeback,
a fresh deposit (tx 2, amount 5) is still accepted and credits available,
and a fresh withdrawal (tx 3, amount 3) is then also accepted and debits
available to 2; the code never consults the `locked` flag on the fund-moving
path. -/
theorem c7_locked_not_enforced_counterexample :
    (accOf (processList State.empty
        [depositE 1 1 10, disputeE 1 1, chargebackE 1 1]) 1).locked = true ∧
    ((processList State.empty
        [depositE 1 1 10, disputeE 1 1, chargebackE 1 1]).apply
          (depositE 1 2 5)).2 = true ∧
    ((processList State.empty
        [depositE 1 1 10, disputeE 1 1, chargebackE 1 1,
         depositE 1 2 5]).apply (withdrawalE 1 3 3)).2 = true ∧
    accOf (processList State.empty
        [depositE 1 1 10, disputeE 1 1, chargebackE 1 1, depositE 1 2 5,
         withdrawalE 1 3 3]) 1 =
      { available := 2, held := 0, locked := true } := by
  have h2 : (10 : ℚ) ≥ 10 := by norm_num
  have h3 : ¬((5 : ℚ) < 3) := by norm_num
  have h4 : (5 : ℚ) - 3 = 2 := by norm_num
  have h5 : ¬((2 : ℚ) < 0) := by norm_num
  simp [processList, State.apply, State.apply_tx, State.apply_op, State.empty,
    EntryType.is_tx, accOf, Map.find, Map.insert, Map.empty, depositE,
    withdrawalE, disputeE, chargebackE, Account.default_def, h2, h3, h4, h5]

/-- C7 amended: the processor does not enforce the lock: a Deposit or
Withdrawal for a client whose account is locked is processed under the same
rules as for any other account.  A deposit always succeeds and credits
available by its amount; a withdrawal succeeds exactly when it would not
drive available strictly negative and then debits available by its amount; a
rejected withdrawal leaves available unchanged; and the account stays locked
in every case. -/
theorem c7_amended_locked_not_enforced (s : State) (e : Entry) (a : Value)
    (htx : e.typ.is_tx = true) (ha : e.amount = some a)
    (hl : (accOf s e.client).locked = true) :
    ((s.apply e).2 = true ↔
      ¬(e.typ = EntryType.Withdrawal ∧
        (accOf s e.client).available - a < 0)) ∧
    (e.typ = EntryType.Deposit →
      (accOf (s.apply e).1 e.client).available =
        (accOf s e.client).available + a) ∧
    (e.typ = EntryType.Withdrawal → (s.apply e).2 = true →
      (accOf (s.apply e).1 e.client).available =
        (accOf s e.client).available - a) ∧
    ((s.apply e).2 = false →
      (accOf (s.apply e).1 e.client).available =
        (accOf s e.client).available) ∧
    (accOf (s.apply e).1 e.client).locked = true := by
  rcases e with ⟨typ, ec, ei, ea, es⟩
  dsimp only at htx ha hl ⊢
  subst ha
  cases typ with
  | Deposit =>
    refine ⟨?_, ?_, ?_, ?_, ?_⟩
    · simp [State.apply, State.apply_tx, EntryType.is_tx]
    · intro _
      simp [State.apply, State.apply_tx, EntryType.is_tx, accOf, Map.find,
        Map.insert]
    · intro h
      exact absurd h (by simp)
    · intro h
      exact absurd h (by simp [State.apply, State.apply_tx, EntryType.is_tx])
    · simp [State.apply, State.apply_tx, EntryType.is_tx, accOf, Map.find,
        Map.insert]
      simpa [accOf, Map.find] using hl
  | Withdrawal =>
    by_cases hlt : ((s.accounts ec).getD default).available < a
    · refine ⟨?_, ?_, ?_, ?_, ?_⟩
      · simp [State.apply, State.apply_tx, EntryType.is_tx, accOf, Map.find,
          Map.insert, hlt]
      · intro h
        exact absurd h (by simp)
      · intro _ h
        exact absurd h (by simp [State.apply, State.apply_tx,
          EntryType.is_tx, accOf, Map.find, Map.insert, hlt])
      · intro _
        simp [State.apply, State.apply_tx, EntryType.is_tx, accOf, Map.find,
          Map.insert, hlt]
      · simp [State.apply, State.apply_tx, EntryType.is_tx, accOf, Map.find,
          Map.insert, hlt]
        simpa [accOf, Map.find] using hl
    · refine ⟨?_, ?_, ?_, ?_, ?_⟩
      · simp [State.apply, State.apply_tx, EntryType.is_tx, accOf, Map.find,
          Map.insert, hlt]
      · intro h
        exact absurd h (by simp)
      · intro _ _
        simp [State.apply, State.apply_tx, EntryType.is_tx, accOf, Map.find,
          Map.insert, hlt]
      · intro h
        exact absurd h (by simp [State.apply, State.apply_tx,
          EntryType.is_tx, accOf, Map.find, Map.insert, hlt])
      · simp [State.apply, State.apply_tx, EntryType.is_tx, accOf, Map.find,
          Map.insert, hlt]
        simpa [accOf, Map.find] using hl
  | Dispute => simp [EntryType.is_tx] at htx
  | Resolve => simp [EntryType.is_tx] at htx
  | Chargeback => simp [EntryType.is_tx] at htx

/-- Witness for the amended C7, exercising both fund-moving kinds on the
locked client 1 of `lockedS` (available = 5): a deposit of 5 succeeds and
credits available, a withdrawal of 3 succeeds and debits available, and the
account stays locked both times. -/
theorem c7_amended_locked_not_enforced_witness :
    (depositE 1 2 5).typ.is_tx = true ∧
    (withdrawalE 1 3 3).typ.is_tx = true ∧
    (accOf lockedS 1).locked = true ∧
    (lockedS.apply (depositE 1 2 5)).2 = true ∧
    (accOf (lockedS.apply (depositE 1 2 5)).1 1).available =
      (accOf lockedS 1).available + 5 ∧
    (accOf (lockedS.apply (depositE 1 2 5)).1 1).locked = true ∧
    (lockedS.apply (withdrawalE 1 3 3)).2 = true ∧
    (accOf (lockedS.apply (withdrawalE 1 3 3)).1 1).available =
      (accOf lockedS 1).available - 3 ∧
    (accOf (lockedS.apply (withdrawalE 1 3 3)).1 1).locked = true := by
  have hl : (accOf lockedS 1).locked = true := by
    simp [lockedS, accOf, Map.find, Map.insert, Map.empty]
  have hdep := c7_amended_locked_not_enforced lockedS (depositE 1 2 5) 5
    rfl rfl hl
  have hwd := c7_amended_locked_not_enforced lockedS (withdrawalE 1 3 3) 3
    rfl rfl hl
  have hdep_ok : (lockedS.apply (depositE 1 2 5)).2 = true :=
    hdep.1.mpr (by simp [depositE])
  have hwd_ok : (lockedS.apply (withdrawalE 1 3 3)).2 = true := by
    refine hwd.1.mpr ?_
    rintro ⟨-, habs⟩
    have h5 : (accOf lockedS (withdrawalE 1 3 3).client).available = 5 := by
      simp [lockedS, accOf, Map.find, Map.insert, Map.empty, withdrawalE]
    rw [h5] at habs
    norm_num at habs
  exact ⟨rfl, rfl, hl, hdep_ok, hdep.2.1 rfl, hdep.2.2.2.2,
    hwd_ok, hwd.2.2.1 rfl hwd_ok, hwd.2.2.2.2⟩

/-- C8: A Chargeback on a transaction in status Disputed, with
`held ≥ amount`, succeeds: it decrements held by the recorded amount, keeps
available unchanged (the record equality below keeps the `available` field),
locks the account, and marks the transaction ChargedBack. -/
theorem c8_chargeback_rule (s : State) (e t : Entry) (acc : Account)
    (a : Value)
    (htyp : e.typ = EntryType.Chargeback)
    (ht : s.transactions.find e.id = some t)
    (hc : t.client = e.client)
    (hacc : s.accounts.find e.client = some acc)
    (ha : t.amount = some a)
    (hst : t.state = EntryState.Disputed)
    (hheld : acc.held ≥ a) :
    (s.apply e).2 = true ∧
    (s.apply e).1.accounts.find e.client =
      some { acc with held := acc.held - a, locked := true } ∧
    (s.apply e).1.transactions.find e.id =
      some { t with state := EntryState.Chargeback } := by
  rcases e with ⟨typ, ec, ei, ea, es⟩
  dsimp only at htyp ht hc hacc ⊢
  subst htyp
  simp [State.apply, State.apply_op, EntryType.is_tx, Map.find_insert,
    ht, hc, hacc, ha, hst, hheld]

/-- Witness for C8: charging back the disputed deposit of 10 empties held,
keeps available at 0, locks the account and marks the record ChargedBack. -/
theorem c8_chargeback_rule_witness :
    (chargebackE 1 1).typ = EntryType.Chargeback ∧
    disputedS.transactions.find (chargebackE 1 1).id =
      some { typ := EntryType.Deposit, client := 1, id := 1,
             amount := some 10, state := EntryState.Disputed } ∧
    disputedS.accounts.find (chargebackE 1 1).client =
      some { available := 0, held := 10, locked := false } ∧
    ((disputedS.apply (chargebackE 1 1)).2 = true ∧
      (disputedS.apply (chargebackE 1 1)).1.accounts.find
          (chargebackE 1 1).client =
        some { available := 0, held := (10 : Value) - 10, locked := true } ∧
      (disputedS.apply (chargebackE 1 1)).1.transactions.find
          (chargebackE 1 1).id =
        some { typ := EntryType.Deposit, client := 1, id := 1,
               amount := some 10, state := EntryState.Chargeback }) := by
  have ht : disputedS.transactions.find (chargebackE 1 1).id =
      some { typ := EntryType.Deposit, client := 1, id := 1,
             amount := some 10, state := EntryState.Disputed } := by
    simp [disputedS, Map.find, Map.insert, Map.empty, chargebackE]
  have hacc : disputedS.accounts.find (chargebackE 1 1).client =
      some { available := 0, held := 10, locked := false } := by
    simp [disputedS, Map.find, Map.insert, Map.empty, chargebackE]
  exact ⟨rfl, ht, hacc,
    c8_chargeback_rule disputedS (chargebackE 1 1) _ _ 10 rfl ht rfl hacc rfl
      rfl (by norm_num)⟩

/-- C4: On a well-formed state, a Dispute succeeds exactly when the
referenced transaction exists, belongs to the same client, and is in status
Processed or Resolved; on success the recorded amount moves from available to
held and the record becomes Disputed; any rejected dispute (including status
New, Failed, Disputed, ChargedBack) leaves the whole state — in particular
every balance — unchanged. -/
theorem c4_dispute_rule (s : State) (e : Entry) (hwf : WF s)
    (htyp : e.typ = EntryType.Dispute) :
    ((s.apply e).2 = true ↔
      ∃ t, s.transactions.find e.id = some t ∧ t.client = e.client ∧
        (t.state = EntryState.Processed ∨ t.state = EntryState.Resolved)) ∧
    (∀ t acc a, s.transactions.find e.id = some t → t.amount = some a →
      s.accounts.find e.client = some acc → (s.apply e).2 = true →
      (s.apply e).1.accounts.find e.client =
        some { acc with available := acc.available - a,
                        held := acc.held + a } ∧
      (s.apply e).1.transactions.find e.id =
        some { t with state := EntryState.Disputed }) ∧
    ((s.apply e).2 = false → (s.apply e).1 = s) := by
  rcases e with ⟨typ, ec, ei, ea, es⟩
  dsimp only at htyp ⊢
  subst htyp
  have happ : s.apply ⟨EntryType.Dispute, ec, ei, ea, es⟩ =
      s.apply_op ⟨EntryType.Dispute, ec, ei, ea, es⟩ := by
    simp [State.apply, EntryType.is_tx]
  rw [happ]
  refine ⟨?_, ?_, ?_⟩
  · unfold State.apply_op
    dsimp only
    rcases hfind : s.transactions.find ei with _ | actual
    · simp
    · dsimp only
      by_cases hcl : actual.client = ec
      · rw [if_pos hcl]
        obtain ⟨hitx, hamS, haccS⟩ := hwf ei actual hfind
        rw [hcl] at haccS
        obtain ⟨acc, hacc⟩ := Option.isSome_iff_exists.mp haccS
        obtain ⟨a, ham⟩ := Option.isSome_iff_exists.mp hamS
        rw [hacc]
        dsimp only
        rw [ham]
        dsimp only
        rw [if_pos hitx]
        by_cases hst : actual.state = EntryState.Processed ∨
            actual.state = EntryState.Resolved
        · rw [if_pos hst]
          exact ⟨fun _ => ⟨actual, rfl, hcl, hst⟩, fun _ => rfl⟩
        · rw [if_neg hst]
          constructor
          · intro hh
            exact absurd hh (by simp)
          · rintro ⟨t, hts, htc, hstt⟩
            cases hts
            exact absurd hstt hst
      · rw [if_neg hcl]
        constructor
        · intro hh
          exact absurd hh (by simp)
        · rintro ⟨t, hts, htc, hstt⟩
          cases hts
          exact absurd htc hcl
  · intro t acc a hfind2 ham hacc hsucc
    unfold State.apply_op at hsucc ⊢
    dsimp only at hsucc ⊢
    rw [hfind2] at hsucc ⊢
    dsimp only at hsucc ⊢
    by_cases hcl : t.client = ec
    · rw [if_pos hcl] at hsucc ⊢
      rw [hacc] at hsucc ⊢
      dsimp only at hsucc ⊢
      rw [ham] at hsucc ⊢
      dsimp only at hsucc ⊢
      obtain ⟨hitx, -, -⟩ := hwf ei t hfind2
      rw [if_pos hitx] at hsucc ⊢
      by_cases hst : t.state = EntryState.Processed ∨
          t.state = EntryState.Resolved
      · rw [if_pos hst] at hsucc ⊢
        dsimp only
        constructor
        · rw [Map.find_insert]
          simp
        · rw [Map.find_insert]
          simp
      · rw [if_neg hst] at hsucc
        exact absurd hsucc (by simp)
    · rw [if_neg hcl] at hsucc
      exact absurd hsucc (by simp)
  · exact fun hf => apply_op_fail_state _ _ hf

/-- `processedS` is well-formed. -/
theorem processedS_wf : WF processedS := by
  intro id t hf
  rw [processedS] at hf
  dsimp only at hf
  rw [Map.find_insert] at hf
  by_cases hid : id = 1
  · rw [if_pos hid] at hf
    cases hf
    refine ⟨by simp [EntryType.is_tx], by simp, ?_⟩
    simp [processedS, Map.find_insert]
  · rw [if_neg hid] at hf
    exact absurd hf (by simp [Map.find, Map.empty])

/-- Witness for C4 at a concrete input: disputing the Processed deposit of 10
in `processedS` succeeds and moves 10 from available to held. -/
theorem c4_dispute_rule_witness :
    WF processedS ∧
    (((processedS.apply (disputeE 1 1)).2 = true ↔
        ∃ t, processedS.transactions.find (disputeE 1 1).id = some t ∧
          t.client = (disputeE 1 1).client ∧
          (t.state = EntryState.Processed ∨
            t.state = EntryState.Resolved)) ∧
      (∀ t acc a,
        processedS.transactions.find (disputeE 1 1).id = some t →
        t.amount = some a →
        processedS.accounts.find (disputeE 1 1).client = some acc →
        (processedS.apply (disputeE 1 1)).2 = true →
        (processedS.apply (disputeE 1 1)).1.accounts.find
            (disputeE 1 1).client =
          some { acc with available := acc.available - a,
                          held := acc.held + a } ∧
        (processedS.apply (disputeE 1 1)).1.transactions.find
            (disputeE 1 1).id =
          some { t with state := EntryState.Disputed }) ∧
      ((processedS.apply (disputeE 1 1)).2 = false →
        (processedS.apply (disputeE 1 1)).1 = processedS)) :=
  ⟨processedS_wf, c4_dispute_rule processedS (disputeE 1 1) processedS_wf rfl⟩

/-- Applying any entry leaves the stored transactions at every other id
untouched: the only insertion is at the entry's own `tx_id`. -/
theorem find_trans_other (s : State) (e : Entry) (q : Nat) (hq : q ≠ e.id) :
    (s.apply e).1.transactions.find q = s.transactions.find q := by
  rcases e with ⟨typ, ec, ei, ea, es⟩
  dsimp only at hq
  unfold State.apply State.apply_tx State.apply_op
  dsimp only
  repeat' split
  all_goals first
    | rfl
    | (dsimp only; rw [Map.find_insert, if_neg hq])

/-- A Dispute, Resolve or Chargeback referencing a transaction whose stored
status is ChargedBack is rejected and changes nothing: the dispute requires
status Processed/Resolved and the other two require status Disputed. -/
theorem cb_op_rejected (s : State) (tx1 : Nat) (t : Entry) (e : Entry)
    (hfind : s.transactions.find tx1 = some t)
    (hst : t.state = EntryState.Chargeback)
    (he : e.typ.is_op = true) (hid : e.id = tx1) :
    s.apply e = (s, false) := by
  rcases e with ⟨typ, ec, ei, ea, es⟩
  dsimp only at he hid
  subst hid
  cases typ with
  | Deposit => simp [EntryType.is_op] at he
  | Withdrawal => simp [EntryType.is_op] at he
  | Dispute =>
    have happ : s.apply ⟨EntryType.Dispute, ec, ei, ea, es⟩ =
        s.apply_op ⟨EntryType.Dispute, ec, ei, ea, es⟩ := by
      simp [State.apply, EntryType.is_tx]
    rw [happ]
    unfold State.apply_op
    dsimp only
    rw [hfind]
    dsimp only
    by_cases hcl : t.client = ec
    · rw [if_pos hcl]
      rcases hacc : s.accounts.find ec with _ | acc
      · rfl
      · dsimp only
        rcases ham : t.amount with _ | a
        · rfl
        · dsimp only
          by_cases hitx : t.typ.is_tx = true
          · rw [if_pos hitx]
            have hneg : ¬(t.state = EntryState.Processed ∨
                t.state = EntryState.Resolved) := by
              rw [hst]; simp
            rw [if_neg hneg]
          · rw [if_neg hitx]
    · rw [if_neg hcl]
  | Resolve =>
    have happ : s.apply ⟨EntryType.Resolve, ec, ei, ea, es⟩ =
        s.apply_op ⟨EntryType.Resolve, ec, ei, ea, es⟩ := by
      simp [State.apply, EntryType.is_tx]
    rw [happ]
    unfold State.apply_op
    dsimp only
    rw [hfind]
    dsimp only
    by_cases hcl : t.client = ec
    · rw [if_pos hcl]
      rcases hacc : s.accounts.find ec with _ | acc
      · rfl
      · dsimp only
        rcases ham : t.amount with _ | a
        · rfl
        · dsimp only
          by_cases hheld : acc.held ≥ a
          · rw [if_pos hheld]
            have hneg : ¬(t.state = EntryState.Disputed) := by
              rw [hst]; simp
            rw [if_neg hneg]
          · rw [if_neg hheld]
    · rw [if_neg hcl]
  | Chargeback =>
    have happ : s.apply ⟨EntryType.Chargeback, ec, ei, ea, es⟩ =
        s.apply_op ⟨EntryType.Chargeback, ec, ei, ea, es⟩ := by
      simp [State.apply, EntryType.is_tx]
    rw [happ]
    unfold State.apply_op
    dsimp only
    rw [hfind]
    dsimp only
    by_cases hcl : t.client = ec
    · rw [if_pos hcl]
      rcases hacc : s.accounts.find ec with _ | acc
      · rfl
      · dsimp only
        rcases ham : t.amount with _ | a
        · rfl
        · dsimp only
          by_cases hheld : acc.held ≥ a
          · rw [if_pos hheld]
            have hneg : ¬(t.state = EntryState.Disputed) := by
              rw [hst]; simp
            rw [if_neg hneg]
          · rw [if_neg hheld]
    · rw [if_neg hcl]

/-- One step of status preservation: while the record at `tx1` is
ChargedBack, any entry that is not a fund-moving entry reusing `tx1` leaves
that record exactly as it is. -/
theorem cb_status_preserved (s : State) (tx1 : Nat) (t : Entry) (e : Entry)
    (hfind : s.transactions.find tx1 = some t)
    (hst : t.state = EntryState.Chargeback)
    (hnotx : ¬(e.typ.is_tx = true ∧ e.id = tx1)) :
    (s.apply e).1.transactions.find tx1 = some t := by
  by_cases hidq : e.id = tx1
  · by_cases htx : e.typ.is_tx = true
    · exact absurd ⟨htx, hidq⟩ hnotx
    · have he : e.typ.is_op = true := by
        cases hty : e.typ <;> simp_all [EntryType.is_tx, EntryType.is_op]
      rw [cb_op_rejected s tx1 t e hfind hst he hidq]
      exact hfind
  · rw [find_trans_other s e tx1 (fun h => hidq h.symm)]
    exact hfind

/-- List version: the ChargedBack record survives any suffix containing no
fund-moving entry that reuses its `tx_id`. -/
theorem cb_preserved_list (tx1 : Nat) (t : Entry)
    (hst : t.state = EntryState.Chargeback) :
    ∀ (p : List Entry) (s : State),
      s.transactions.find tx1 = some t →
      (∀ x ∈ p, ¬(x.typ.is_tx = true ∧ x.id = tx1)) →
      (processList s p).transactions.find tx1 = some t := by
  intro p
  induction p with
  | nil => exact fun s h1 _ => h1
  | cons x rest ih =>
    intro s h1 h2
    exact ih (s.apply x).1
      (cb_status_preserved s tx1 t x h1 hst (h2 x (List.mem_cons_self x rest)))
      (fun y hy => h2 y (List.mem_cons_of_mem x hy))

/-- C5 counterexample: the claim is violated when a later Deposit reuses the
charged-back `tx_id`.  After deposit/dispute/chargeback on tx 1, the stored
status is ChargedBack; a deposit of 7 reusing tx 1 overwrites the record, and
a subsequent Dispute of tx 1 — an operation applied after the status was
ChargedBack — succeeds instead of being rejected. -/
theorem c5_chargeback_not_terminal_counterexample :
    ((processList State.empty
        [depositE 1 1 10, disputeE 1 1, chargebackE 1 1]).transactions.find
          1).map Entry.state = some EntryState.Chargeback ∧
    (((processList State.empty
        [depositE 1 1 10, disputeE 1 1, chargebackE 1 1]).apply
          (depositE 1 1 7)).1.apply (disputeE 1 1)).2 = true := by
  have h2 : (10 : ℚ) ≥ 10 := by norm_num
  simp [processList, State.apply, State.apply_tx, State.apply_op, State.empty,
    EntryType.is_tx, Map.find, Map.insert, Map.empty, depositE, disputeE,
    chargebackE, Account.default_def, h2]

/-- C5 amended: chargeback is terminal as long as no later Deposit or
Withdrawal reuses the charged-back `tx_id` (the code lacks a duplicate-id
check, so such a reuse overwrites the record).  Under that proviso, after any
further entries every Dispute/Resolve/Chargeback referencing the `tx_id` is
rejected and leaves the entire state — in particular every account's
available, held and locked fields — unchanged. -/
theorem c5_amended_terminal (s : State) (tx1 : Nat) (t : Entry)
    (p : List Entry) (e : Entry)
    (hfind : s.transactions.find tx1 = some t)
    (hst : t.state = EntryState.Chargeback)
    (hp : ∀ x ∈ p, ¬(x.typ.is_tx = true ∧ x.id = tx1))
    (he : e.typ.is_op = true) (hid : e.id = tx1) :
    ((processList s p).apply e).2 = false ∧
    ((processList s p).apply e).1 = processList s p := by
  have hpres := cb_preserved_list tx1 t hst p s hfind hp
  rw [cb_op_rejected (processList s p) tx1 t e hpres hst he hid]
  exact ⟨rfl, rfl⟩

/-- Witness for the amended C5: starting from the charged-back state, after
an unrelated deposit for client 2, a Dispute of tx 1 is rejected and changes
nothing. -/
theorem c5_amended_terminal_witness :
    chargedBackS.transactions.find 1 =
      some { typ := EntryType.Deposit, client := 1, id := 1,
             amount := some 10, state := EntryState.Chargeback } ∧
    (∀ x ∈ [depositE 2 2 3], ¬(x.typ.is_tx = true ∧ x.id = 1)) ∧
    (disputeE 1 1).typ.is_op = true ∧
    (((processList chargedBackS [depositE 2 2 3]).apply
        (disputeE 1 1)).2 = false ∧
      ((processList chargedBackS [depositE 2 2 3]).apply (disputeE 1 1)).1 =
        processList chargedBackS [depositE 2 2 3]) := by
  have hfind : chargedBackS.transactions.find 1 =
      some { typ := EntryType.Deposit, client := 1, id := 1,
             amount := some 10, state := EntryState.Chargeback } := by
    simp [chargedBackS, Map.find, Map.insert]
  have hp : ∀ x ∈ [depositE 2 2 3], ¬(x.typ.is_tx = true ∧ x.id = 1) := by
    simp [depositE]
  have he : (disputeE 1 1).typ.is_op = true := by
    simp [disputeE, EntryType.is_op]
  exact ⟨hfind, hp, he,
    c5_amended_terminal chargedBackS 1 _ [depositE 2 2 3] (disputeE 1 1)
      hfind rfl hp he rfl⟩

/-- Re-inserting a client's current account (`entry().or_insert`) does not
change any total. -/
theorem totalOf_or_insert (s : State) (cl c : Nat) :
    totalOf { s with accounts := s.accounts.insert cl (accOf s cl) } c =
      totalOf s c := by
  unfold totalOf accOf
  dsimp only
  rw [Map.find_insert]
  by_cases hc : c = cl
  · rw [if_pos hc, hc]
    simp [accOf]
  · rw [if_neg hc]

/-- One-step conservation: applying an entry changes a client's total
`available + held` by exactly that entry's net flow. -/
theorem totalOf_apply (s : State) (e : Entry) (c : Nat) :
    totalOf (s.apply e).1 c = totalOf s c + flowDelta s e c := by
  by_cases hsucc : (s.apply e).2 = true
  case neg =>
    have hf : (s.apply e).2 = false := by
      revert hsucc
      cases (s.apply e).2 <;> simp
    rw [flowDelta, if_neg (by simp [hf])]
    rw [add_zero]
    by_cases htx : e.typ.is_tx = true
    · have happ : s.apply e = s.apply_tx e := by simp [State.apply, htx]
      rw [happ] at hf ⊢
      rw [apply_tx_fail_state s e hf]
      exact totalOf_or_insert s e.client c
    · have happ : s.apply e = s.apply_op e := by simp [State.apply, htx]
      rw [happ] at hf ⊢
      rw [apply_op_fail_state s e hf]
  case pos =>
    rcases e with ⟨typ, ec, ei, ea, es⟩
    cases typ with
    | Deposit =>
      rw [flowDelta]
      have happ : s.apply ⟨EntryType.Deposit, ec, ei, ea, es⟩ =
          s.apply_tx ⟨EntryType.Deposit, ec, ei, ea, es⟩ := by
        simp [State.apply, EntryType.is_tx]
      rw [happ] at hsucc ⊢
      unfold State.apply_tx at hsucc ⊢
      dsimp only at hsucc ⊢
      cases ea with
      | none => exact absurd hsucc (by simp)
      | some a =>
        dsimp only
        by_cases hc : ec = c
        · rw [if_pos ⟨rfl, hc⟩]
          subst hc
          unfold totalOf accOf
          dsimp only
          rw [Map.find_insert]
          simp
          ring
        · rw [if_neg (by simp [hc])]
          rw [add_zero]
          unfold totalOf accOf
          dsimp only
          rw [Map.find_insert, if_neg (Ne.symm hc), Map.find_insert,
            if_neg (Ne.symm hc)]
    | Withdrawal =>
      rw [flowDelta]
      have happ : s.apply ⟨EntryType.Withdrawal, ec, ei, ea, es⟩ =
          s.apply_tx ⟨EntryType.Withdrawal, ec, ei, ea, es⟩ := by
        simp [State.apply, EntryType.is_tx]
      rw [happ] at hsucc ⊢
      unfold State.apply_tx at hsucc ⊢
      dsimp only at hsucc ⊢
      cases ea with
      | none => exact absurd hsucc (by simp)
      | some a =>
        dsimp only at hsucc ⊢
        by_cases hlt : ((s.accounts.find ec).getD default).available - a < 0
        · rw [if_pos hlt] at hsucc
          exact absurd hsucc (by simp)
        · rw [if_neg hlt] at hsucc ⊢
          by_cases hc : ec = c
          · rw [if_pos ⟨rfl, hc⟩]
            subst hc
            unfold totalOf accOf
            dsimp only
            rw [Map.find_insert]
            simp
            ring
          · rw [if_neg (by simp [hc])]
            rw [add_zero]
            unfold totalOf accOf
            dsimp only
            rw [Map.find_insert, if_neg (Ne.symm hc), Map.find_insert,
              if_neg (Ne.symm hc)]
    | Dispute =>
      rw [flowDelta]
      have happ : s.apply ⟨EntryType.Dispute, ec, ei, ea, es⟩ =
          s.apply_op ⟨EntryType.Dispute, ec, ei, ea, es⟩ := by
        simp [State.apply, EntryType.is_tx]
      rw [happ] at hsucc ⊢
      unfold State.apply_op at hsucc ⊢
      dsimp only at hsucc ⊢
      rcases hfind : s.transactions.find ei with _ | actual
      · rw [hfind] at hsucc
        exact absurd hsucc (by simp)
      · rw [hfind] at hsucc
        dsimp only at hsucc ⊢
        by_cases hcl : actual.client = ec
        · rw [if_pos hcl] at hsucc ⊢
          rcases hacc : s.accounts.find ec with _ | acc
          · rw [hacc] at hsucc
            exact absurd hsucc (by simp)
          · rw [hacc] at hsucc
            dsimp only at hsucc ⊢
            rcases ham : actual.amount with _ | am
            · rw [ham] at hsucc
              exact absurd hsucc (by simp)
            · rw [ham] at hsucc
              dsimp only at hsucc ⊢
              by_cases hitx : actual.typ.is_tx = true
              · rw [if_pos hitx] at hsucc ⊢
                by_cases hst : actual.state = EntryState.Processed ∨
                    actual.state = EntryState.Resolved
                · rw [if_pos hst] at hsucc ⊢
                  rw [ite_self, add_zero]
                  unfold totalOf accOf
                  dsimp only
                  rw [Map.find_insert]
                  by_cases hc : c = ec
                  · rw [if_pos hc, hc, hacc]
                    simp
                  · rw [if_neg hc]
                · rw [if_neg hst] at hsucc
                  exact absurd hsucc (by simp)
              · rw [if_neg hitx] at hsucc
                exact absurd hsucc (by simp)
        · rw [if_neg hcl] at hsucc
          exact absurd hsucc (by simp)
    | Resolve =>
      rw [flowDelta]
      have happ : s.apply ⟨EntryType.Resolve, ec, ei, ea, es⟩ =
          s.apply_op ⟨EntryType.Resolve, ec, ei, ea, es⟩ := by
        simp [State.apply, EntryType.is_tx]
      rw [happ] at hsucc ⊢
      unfold State.apply_op at hsucc ⊢
      dsimp only at hsucc ⊢
      rcases hfind : s.transactions.find ei with _ | actual
      · rw [hfind] at hsucc
        exact absurd hsucc (by simp)
      · rw [hfind] at hsucc
        dsimp only at hsucc ⊢
        by_cases hcl : actual.client = ec
        · rw [if_pos hcl] at hsucc ⊢
          rcases hacc : s.accounts.find ec with _ | acc
          · rw [hacc] at hsucc
            exact absurd hsucc (by simp)
          · rw [hacc] at hsucc
            dsimp only at hsucc ⊢
            rcases ham : actual.amount with _ | am
            · rw [ham] at hsucc
              exact absurd hsucc (by simp)
            · rw [ham] at hsucc
              dsimp only at hsucc ⊢
              by_cases hheld : acc.held ≥ am
              · rw [if_pos hheld] at hsucc ⊢
                by_cases hst : actual.state = EntryState.Disputed
                · rw [if_pos hst] at hsucc ⊢
                  rw [ite_self, add_zero]
                  unfold totalOf accOf
                  dsimp only
                  rw [Map.find_insert]
                  by_cases hc : c = ec
                  · rw [if_pos hc, hc, hacc]
                    simp
                  · rw [if_neg hc]
                · rw [if_neg hst] at hsucc
                  exact absurd hsucc (by simp)
              · rw [if_neg hheld] at hsucc
                exact absurd hsucc (by simp)
        · rw [if_neg hcl] at hsucc
          exact absurd hsucc (by simp)
    | Chargeback =>
      rw [flowDelta]
      have happ : s.apply ⟨EntryType.Chargeback, ec, ei, ea, es⟩ =
          s.apply_op ⟨EntryType.Chargeback, ec, ei, ea, es⟩ := by
        simp [State.apply, EntryType.is_tx]
      rw [happ] at hsucc ⊢
      unfold State.apply_op at hsucc ⊢
      dsimp only at hsucc ⊢
      rcases hfind : s.transactions.find ei with _ | actual
      · rw [hfind] at hsucc
        exact absurd hsucc (by simp)
      · rw [hfind] at hsucc
        dsimp only at hsucc ⊢
        by_cases hcl : actual.client = ec
        · rw [if_pos hcl] at hsucc ⊢
          rcases hacc : s.accounts.find ec with _ | acc
          · rw [hacc] at hsucc
            exact absurd hsucc (by simp)
          · rw [hacc] at hsucc
            dsimp only at hsucc ⊢
            rcases ham : actual.amount with _ | am
            · rw [ham] at hsucc
              exact absurd hsucc (by simp)
            · rw [ham] at hsucc
              dsimp only at hsucc ⊢
              by_cases hheld : acc.held ≥ am
              · rw [if_pos hheld] at hsucc ⊢
                by_cases hst : actual.state = EntryState.Disputed
                · rw [if_pos hst] at hsucc ⊢
                  simp only [Option.some_bind]
                  rw [ham]
                  by_cases hc : ec = c
                  · rw [if_pos ⟨trivial, hc⟩]
                    subst hc
                    unfold totalOf accOf
                    dsimp only
                    rw [Map.find_insert]
                    simp [hacc]
                    ring
                  · rw [if_neg (by simp [hc])]
                    rw [add_zero]
                    unfold totalOf accOf
                    dsimp only
                    rw [Map.find_insert, if_neg (Ne.symm hc)]
                · rw [if_neg hst] at hsucc
                  exact absurd hsucc (by simp)
              · rw [if_neg hheld] at hsucc
                exact absurd hsucc (by simp)
        · rw [if_neg hcl] at hsucc
          exact absurd hsucc (by simp)

/-- Processing a list of entries changes a client's total by exactly the
summed net flow. -/
theorem totalOf_processList (l : List Entry) :
    ∀ (s : State) (c : Nat),
      totalOf (processList s l) c = totalOf s c + flows s l c := by
  induction l with
  | nil => intro s c; simp [processList, flows]
  | cons e rest ih =>
    intro s c
    show totalOf (processList (s.apply e).1 rest) c =
      totalOf s c + (flowDelta s e c + flows (s.apply e).1 rest c)
    rw [ih (s.apply e).1 c, totalOf_apply]
    ring

/-- C6: Conservation law.  For every entry sequence processed from the empty
state and every client, `available + held` never exceeds the sum of the
amounts of deposits accepted for processing (status Processed) minus the
withdrawals accepted for processing, minus all charged-back amounts, for that
client — `flows` computes exactly that signed sum.  (In fact equality holds;
the claimed inequality follows.) -/
theorem c6_conservation (l : List Entry) (c : Nat) :
    totalOf (processList State.empty l) c ≤ flows State.empty l c := by
  have h := totalOf_processList l State.empty c
  have h0 : totalOf State.empty c = 0 := by
    simp [totalOf, accOf, State.empty, Map.find, Map.empty,
      Account.default_def]
  rw [h, h0, zero_add]

/-- C9: The worked scenario from the spec: client 1 deposits 10 (tx 1),
the withdrawal of 15 (tx 2) is rejected leaving available at 10, dispute of
tx 1 moves 10 to held, resolve returns it, the second dispute moves it again,
and the chargeback destroys the held 10 and locks the account; finally
available = 0, held = 0, total = 0, locked = true. -/
theorem c9_concrete_scenario :
    accOf (processList State.empty [depositE 1 1 10]) 1 =
      { available := 10, held := 0, locked := false } ∧
    ((processList State.empty [depositE 1 1 10]).apply
        (withdrawalE 1 2 15)).2 = false ∧
    accOf (processList State.empty
        [depositE 1 1 10, withdrawalE 1 2 15]) 1 =
      { available := 10, held := 0, locked := false } ∧
    accOf (processList State.empty
        [depositE 1 1 10, withdrawalE 1 2 15, disputeE 1 1]) 1 =
      { available := 0, held := 10, locked := false } ∧
    accOf (processList State.empty
        [depositE 1 1 10, withdrawalE 1 2 15, disputeE 1 1,
         resolveE 1 1]) 1 =
      { available := 10, held := 0, locked := false } ∧
    accOf (processList State.empty
        [depositE 1 1 10, withdrawalE 1 2 15, disputeE 1 1, resolveE 1 1,
         disputeE 1 1]) 1 =
      { available := 0, held := 10, locked := false } ∧
    accOf (processList State.empty
        [depositE 1 1 10, withdrawalE 1 2 15, disputeE 1 1, resolveE 1 1,
         disputeE 1 1, chargebackE 1 1]) 1 =
      { available := 0, held := 0, locked := true } ∧
    totalOf (processList State.empty
        [depositE 1 1 10, withdrawalE 1 2 15, disputeE 1 1, resolveE 1 1,
         disputeE 1 1, chargebackE 1 1]) 1 = 0 := by
  have h1 : (10 : ℚ) - 15 < 0 := by norm_num
  have h2 : (10 : ℚ) ≥ 10 := by norm_num
  simp [processList, totalOf, State.apply, State.apply_tx, State.apply_op,
    State.empty, EntryType.is_tx, accOf, Map.find, Map.insert, Map.empty,
    depositE, withdrawalE, disputeE, resolveE, chargebackE,
    Account.default_def, h1, h2]

end TProc
